import Mathlib

/-!
Verification of the QuickList storage adapter and list controller
(`src/storage/localStorage.js`, `src/app.js`).

The backing store (`localStorage`) is modelled as a partial map from string
keys to string values.  `JSON.stringify` / `JSON.parse` are modelled by an
executable serializer and recursive-descent parser over a `Json` tree.
Deviations of the model from the ECMAScript JSON grammar, none of which is
observable by the code under verification: only integer numerals are parsed
(no fractions/exponents), and strings are sequences of unicode scalar
values rather than UTF-16 code units.
-/

namespace QuickList

/-- A JSON value.  `num` carries an integer (the only numerals the model
parses); `obj` fields are kept in insertion order, as JavaScript does. -/
inductive Json where
  | nul : Json
  | bool : Bool → Json
  | num : Int → Json
  | str : String → Json
  | arr : List Json → Json
  | obj : List (String × Json) → Json

/-- A list item as created by `addItem` in `src/app.js`:
an object with string fields `id` and `text`. -/
structure Item where
  id : String
  text : String

/-- Looks a key up in an object's field list; a later binding shadows an
earlier one, as in JavaScript. -/
def getFieldList : List (String × Json) → String → Option Json
  | [], _ => none
  | p :: fs, key =>
    match getFieldList fs key with
    | some v => some v
    | none => if p.1 = key then some p.2 else none

/-- JavaScript property read `j[key]` on a parsed JSON value: `none`
stands for `undefined` (non-object, or absent key). -/
def Json.getField : Json → String → Option Json
  | .obj fs, key => getFieldList fs key
  | _, _ => none

/-- The JSON encoding of an item object literal. -/
def itemToJson (it : Item) : Json :=
  .obj [("id", .str it.id), ("text", .str it.text)]

/-- Reads an item record back out of a JSON value (spec-side helper used
to state round-trip fidelity at the record level). -/
def decodeItem (j : Json) : Option Item :=
  match j.getField "id", j.getField "text" with
  | some (.str i), some (.str t) => some ⟨i, t⟩
  | _, _ => none

/-! ### JSON.stringify -/

/-- Lower-case hex digit for `n < 16`. -/
def hexDigitChar (n : Nat) : Char :=
  if n < 10 then Char.ofNat (48 + n) else Char.ofNat (87 + n)

/-- How `JSON.stringify` escapes one character inside a string literal. -/
def escapeChar (c : Char) : List Char :=
  if c = '"' then ['\\', '"']
  else if c = '\\' then ['\\', '\\']
  else if c = Char.ofNat 8 then ['\\', 'b']
  else if c = '\t' then ['\\', 't']
  else if c = '\n' then ['\\', 'n']
  else if c = Char.ofNat 12 then ['\\', 'f']
  else if c = Char.ofNat 13 then ['\\', 'r']
  else if c.toNat < 32 then
    '\\' :: 'u' :: '0' :: '0' :: [hexDigitChar (c.toNat / 16), hexDigitChar (c.toNat % 16)]
  else [c]

def escapeList : List Char → List Char
  | [] => []
  | c :: cs => escapeChar c ++ escapeList cs

/-- A JSON string literal, quotes included. -/
def quoteChars (s : String) : List Char :=
  '"' :: (escapeList s.data ++ ['"'])

mutual

/-- Models `JSON.stringify` of a value, as a character list. -/
def stringifyVal : Json → List Char
  | .nul => "null".data
  | .bool true => "true".data
  | .bool false => "false".data
  | .num n => (toString n).data
  | .str s => quoteChars s
  | .arr xs => '[' :: (stringifyElems xs ++ [']'])
  | .obj fs => '{' :: (stringifyFields fs ++ ['}'])

def stringifyElems : List Json → List Char
  | [] => []
  | [x] => stringifyVal x
  | x :: y :: xs => stringifyVal x ++ ',' :: stringifyElems (y :: xs)

def stringifyFields : List (String × Json) → List Char
  | [] => []
  | [(k, v)] => quoteChars k ++ ':' :: stringifyVal v
  | (k, v) :: f :: fs => quoteChars k ++ ':' :: stringifyVal v ++ ',' :: stringifyFields (f :: fs)

end

def stringify (j : Json) : String := String.mk (stringifyVal j)

/-! ### JSON.parse -/

def isJsonWs (c : Char) : Bool :=
  c = ' ' || c = '\t' || c = '\n' || c = Char.ofNat 13

def skipWs : List Char → List Char
  | [] => []
  | c :: cs => if isJsonWs c then skipWs cs else c :: cs

def hexVal (c : Char) : Option Nat :=
  if 48 ≤ c.toNat ∧ c.toNat ≤ 57 then some (c.toNat - 48)
  else if 97 ≤ c.toNat ∧ c.toNat ≤ 102 then some (c.toNat - 87)
  else if 65 ≤ c.toNat ∧ c.toNat ≤ 70 then some (c.toNat - 55)
  else none

/-- Prepends a char to the first component of a parse result. -/
def consFst (c : Char) : Option (List Char × List Char) → Option (List Char × List Char)
  | some (s, rest) => some (c :: s, rest)
  | none => none

/-- Parses the body of a JSON string literal (after the opening quote),
returning the decoded characters and the input after the closing quote. -/
def parseStringBody : List Char → Option (List Char × List Char)
  | [] => none
  | c :: rest =>
    if c = '"' then some ([], rest)
    else if c = '\\' then
      match rest with
      | [] => none
      | e :: rest₂ =>
        if e = '"' then consFst '"' (parseStringBody rest₂)
        else if e = '\\' then consFst '\\' (parseStringBody rest₂)
        else if e = '/' then consFst '/' (parseStringBody rest₂)
        else if e = 'b' then consFst (Char.ofNat 8) (parseStringBody rest₂)
        else if e = 'f' then consFst (Char.ofNat 12) (parseStringBody rest₂)
        else if e = 'n' then consFst '\n' (parseStringBody rest₂)
        else if e = 'r' then consFst (Char.ofNat 13) (parseStringBody rest₂)
        else if e = 't' then consFst '\t' (parseStringBody rest₂)
        else if e = 'u' then
          match rest₂ with
          | h₁ :: h₂ :: h₃ :: h₄ :: rest₃ =>
            match hexVal h₁, hexVal h₂, hexVal h₃, hexVal h₄ with
            | some a, some b, some c₃, some d =>
              consFst (Char.ofNat (4096 * a + 256 * b + 16 * c₃ + d)) (parseStringBody rest₃)
            | _, _, _, _ => none
          | _ => none
        else none
    else if c.toNat < 32 then none
    else consFst c (parseStringBody rest)

/-- Digits of an unsigned integer numeral. -/
def digitsToNat (acc : Nat) : List Char → Nat
  | [] => acc
  | c :: cs => digitsToNat (acc * 10 + (c.toNat - 48)) cs

/-- Parses an integer numeral (model restriction: no fraction/exponent). -/
def parseIntChars (input : List Char) : Option (Int × List Char) :=
  let (sign, rest) : Int × List Char :=
    match input with
    | '-' :: r => (-1, r)
    | r => (1, r)
  let ds := rest.takeWhile (fun c => c.isDigit)
  if ds = [] then none
  else some (sign * (digitsToNat 0 ds : Nat), rest.dropWhile (fun c => c.isDigit))

mutual

/-- Fueled recursive-descent parser for one JSON value; the fuel only
decreases when nesting into a sub-value, and is in surplus whenever it
exceeds five times the nesting depth of the input. -/
def parseVal : Nat → List Char → Option (Json × List Char)
  | 0, _ => none
  | fuel + 1, input =>
    match skipWs input with
    | [] => none
    | c :: rest =>
      if c = '"' then
        match parseStringBody rest with
        | some (s, rest₂) => some (.str (String.mk s), rest₂)
        | none => none
      else if c = '[' then
        match skipWs rest with
        | ']' :: rest₂ => some (.arr [], rest₂)
        | _ =>
          match parseElems fuel (skipWs rest) with
          | some (xs, rest₂) => some (.arr xs, rest₂)
          | none => none
      else if c = '{' then
        match skipWs rest with
        | '}' :: rest₂ => some (.obj [], rest₂)
        | _ =>
          match parseFields fuel (skipWs rest) with
          | some (fs, rest₂) => some (.obj fs, rest₂)
          | none => none
      else if c = 't' then
        match rest with
        | 'r' :: 'u' :: 'e' :: rest₂ => some (.bool true, rest₂)
        | _ => none
      else if c = 'f' then
        match rest with
        | 'a' :: 'l' :: 's' :: 'e' :: rest₂ => some (.bool false, rest₂)
        | _ => none
      else if c = 'n' then
        match rest with
        | 'u' :: 'l' :: 'l' :: rest₂ => some (.nul, rest₂)
        | _ => none
      else if c = '-' ∨ c.isDigit then
        match parseIntChars (c :: rest) with
        | some (n, rest₂) => some (.num n, rest₂)
        | none => none
      else none

/-- Parses `value (',' value)* ']'` — the non-empty element list of an
array together with its closing bracket. -/
def parseElems : Nat → List Char → Option (List Json × List Char)
  | 0, _ => none
  | fuel + 1, input =>
    match parseVal fuel input with
    | none => none
    | some (j, rest) =>
      match skipWs rest with
      | ',' :: rest₂ =>
        match parseElems fuel rest₂ with
        | some (js, rest₃) => some (j :: js, rest₃)
        | none => none
      | ']' :: rest₂ => some ([j], rest₂)
      | _ => none

/-- Parses `string ':' value (',' field)* '}'` — the non-empty field list
of an object together with its closing brace. -/
def parseFields : Nat → List Char → Option (List (String × Json) × List Char)
  | 0, _ => none
  | fuel + 1, input =>
    match skipWs input with
    | '"' :: rest =>
      match parseStringBody rest with
      | none => none
      | some (key, rest₂) =>
        match skipWs rest₂ with
        | ':' :: rest₃ =>
          match parseVal fuel rest₃ with
          | none => none
          | some (v, rest₄) =>
            match skipWs rest₄ with
            | ',' :: rest₅ =>
              match parseFields fuel rest₅ with
              | some (fs, rest₆) => some ((String.mk key, v) :: fs, rest₆)
              | none => none
            | '}' :: rest₅ => some ([(String.mk key, v)], rest₅)
            | _ => none
        | _ => none
    | _ => none

end

/-- Models `JSON.parse`: `none` models a thrown `SyntaxError`.  The whole input
must be consumed (up to trailing whitespace).  The fuel `5·|s| + 6` is an
artifact of the fueled parser and exceeds five times any possible nesting
depth of the input. -/
def parseJson (s : String) : Option Json :=
  match parseVal (5 * s.data.length + 6) s.data with
  | some (j, rest) => if skipWs rest = [] then some j else none
  | none => none

/-! ### The backing store and the storage adapter (`src/storage/localStorage.js`) -/

/-- The backing store `localStorage`: a partial map from string keys to string values. -/
def Store := String → Option String

/-- The empty backing store. -/
def emptyStore : Store := fun _ => none

/-- Models `localStorage.setItem(key, value)`. -/
def Store.setItem (st : Store) (key value : String) : Store :=
  fun k => if k = key then some value else st k

/-- Models `localStorage.removeItem(key)`. -/
def Store.removeItem (st : Store) (key : String) : Store :=
  fun k => if k = key then none else st k

/-- The storage key for a list's item sequence: `PREFIX + uuid` with
`PREFIX = 'quicklist_'`. -/
def itemsKey (uuid : String) : String := "quicklist_" ++ uuid

/-- The storage key for a list's title: `TITLE_PREFIX + uuid` with
`TITLE_PREFIX = 'quicklist_title_'`. -/
def titleKey (uuid : String) : String := "quicklist_title_" ++ uuid

/-- Function `load(uuid)` from `src/storage/localStorage.js` lines 3-12: read the
raw string, return `[]` when it is absent or falsy, `JSON.parse` it
(`catch` → `[]`), and return the parsed value only when it is an array. -/
def load (uuid : String) (st : Store) : List Json :=
  match st (itemsKey uuid) with
  | none => []
  | some raw =>
    if raw = "" then []
    else
      match parseJson raw with
      | some (.arr xs) => xs
      | some _ => []
      | none => []

/-- Function `save(uuid, items)` lines 14-16: `setItem(PREFIX+uuid, JSON.stringify(items))`. -/
def save (uuid : String) (items : List Json) (st : Store) : Store :=
  st.setItem (itemsKey uuid) (stringify (.arr items))

/-- Function `remove(uuid)` lines 18-20: `removeItem(PREFIX+uuid)`. -/
def remove (uuid : String) (st : Store) : Store :=
  st.removeItem (itemsKey uuid)

/-- Function `loadTitle(uuid)` lines 24-26: `getItem(TITLE_PREFIX+uuid) || 'My List'`
(the default also replaces a stored falsy value, i.e. the empty string). -/
def loadTitle (uuid : String) (st : Store) : String :=
  match st (titleKey uuid) with
  | none => "My List"
  | some t => if t = "" then "My List" else t

/-- Function `saveTitle(uuid, title)` lines 28-30. -/
def saveTitle (uuid title : String) (st : Store) : Store :=
  st.setItem (titleKey uuid) title

/-- JavaScript `s.startsWith(p)` (modelled on the character list). -/
def jsStartsWith (s p : String) : Bool := p.data.isPrefixOf s.data

/-- JavaScript `s.slice(n)` for a non-negative `n` (modelled on the
character list). -/
def jsSlice (s : String) (n : Nat) : String := String.mk (s.data.drop n)

/-- Function `onStorageChange(callback)` lines 36-43: for a `storage` event whose
key is non-null and starts with `PREFIX`, the subscribed callback is
invoked with `(uuid, load(uuid))` where `uuid = key.slice(PREFIX.length)`.
This function returns the argument pair of that invocation, or `none`
when the callback is not invoked. -/
def storageEventArgs (key : Option String) (st : Store) : Option (String × List Json) :=
  match key with
  | none => none
  | some k =>
    if jsStartsWith k "quicklist_" then
      let uuid := jsSlice k "quicklist_".length
      some (uuid, load uuid st)
    else none

/-! ### The list controller (`src/app.js`) -/

/-- Strips leading and trailing whitespace from a character list. -/
def trimChars (l : List Char) : List Char :=
  ((l.dropWhile Char.isWhitespace).reverse.dropWhile Char.isWhitespace).reverse

/-- JavaScript `s.trim()`: strip leading and trailing whitespace. -/
def jsTrim (s : String) : String :=
  String.mk (trimChars s.data)

/-- The controller's reactive state (`src/app.js` lines 22-27). -/
structure AppState where
  listId : String
  items : List Json
  newItemText : String
  editingId : Option String
  editingText : String

/-- Function `getIdFromHash` lines 9-15: the hash must start with `'#/'` and be
longer than 2 characters; the id is everything after the `'#/'`. -/
def getIdFromHash (hash : String) : Option String :=
  if jsStartsWith hash "#/" ∧ hash.data.length > 2 then some (jsSlice hash 2)
  else none

/-- The `listId` initialisation in `setup` (lines 22, 30-34): take the id
from the hash when present, else use a freshly generated identifier and
rewrite the hash to `'#/' + id`.  Returns the resulting
`(listId, location.hash)` pair. -/
def initListId (hash freshId : String) : String × String :=
  match getIdFromHash hash with
  | some i => (i, hash)
  | none => (freshId, "#/" ++ freshId)

/-- Function `addItem` lines 52-69: trim the input; if empty, return without
mutating; else push `{id: crypto.randomUUID(), text}` and save.  The
generated UUID is passed in as `freshId`. -/
def addItem (freshId : String) (s : AppState) (st : Store) : AppState × Store :=
  let text := jsTrim s.newItemText
  if text = "" then (s, st)
  else
    let items := s.items ++ [itemToJson ⟨freshId, text⟩]
    ({ s with items := items, newItemText := "" }, save s.listId items st)

/-- JavaScript `i.id !== id` is false exactly when the property `id` is
the string `id`. -/
def hasId (j : Json) (id : String) : Bool :=
  match j.getField "id" with
  | some (.str x) => x = id
  | _ => false

/-- Function `deleteItem` lines 71-75: the `confirm` dialog result is passed in as
`confirmed`; when it is false nothing is mutated, else the items whose
`id` property equals `id` are filtered out and the result saved. -/
def deleteItem (confirmed : Bool) (id : String) (s : AppState) (st : Store) : AppState × Store :=
  if confirmed = false then (s, st)
  else
    let items := s.items.filter (fun i => !(hasId i id))
    ({ s with items := items }, save s.listId items st)

/-- Function `startEdit` lines 77-89 (visual focus handling omitted): record the
item's `id` and `text` properties in the editing sub-state. -/
def startEdit (item : Json) (s : AppState) : AppState :=
  { s with
    editingId := match item.getField "id" with | some (.str i) => some i | _ => none,
    editingText := match item.getField "text" with | some (.str t) => t | _ => "" }

/-- Function `cancelEdit` lines 100-103. -/
def cancelEdit (s : AppState) : AppState :=
  { s with editingId := none, editingText := "" }

/-- JavaScript `item.text = text` on a parsed JSON object. -/
def Json.setText (j : Json) (t : String) : Json :=
  match j with
  | .obj fs =>
    if fs.any (fun p => p.1 = "text") then
      .obj (fs.map (fun p => if p.1 = "text" then (p.1, .str t) else p))
    else .obj (fs ++ [("text", .str t)])
  | _ => j

/-- Function `saveEdit(item)` lines 91-98: the edited item is identified by its
position `i` (JavaScript mutates it through the object reference).  If
the trimmed editing text is non-empty the item's `text` is replaced and
the list saved; either way the editing sub-state is cleared. -/
def saveEdit (i : Nat) (s : AppState) (st : Store) : AppState × Store :=
  let text := jsTrim s.editingText
  if text = "" then (cancelEdit s, st)
  else
    let items := s.items.set i ((s.items.getD i .nul).setText text)
    (cancelEdit { s with items := items }, save s.listId items st)

/-- The SortableJS `onEnd` handler, lines 139-143:
`splice(oldIndex, 1)` followed by `splice(newIndex, 0, moved)`.  (For an
out-of-bounds `oldIndex` the spliced-out `undefined` is represented by
`null`, which is what `JSON.stringify` turns it into; all claims concern
in-bounds indices.) -/
def onEndMove (oldIndex newIndex : Nat) (l : List Json) : List Json :=
  let removed := l.take oldIndex ++ l.drop (oldIndex + 1)
  let moved := l.getD oldIndex .nul
  removed.take newIndex ++ moved :: removed.drop newIndex

/-- The reorder operation: the `onEnd` handler updates the items and
saves (lines 139-143). -/
def reorderItems (oldIndex newIndex : Nat) (s : AppState) (st : Store) : AppState × Store :=
  let items := onEndMove oldIndex newIndex s.items
  ({ s with items := items }, save s.listId items st)

/-- The `storage.onStorageChange` subscription in `setup` (lines 160-164):
when the notified id is the active one, the whole in-memory sequence is
replaced by the notified sequence. -/
def handleStorageNotification (changedId : String) (newItems : List Json) (s : AppState) : AppState :=
  if changedId = s.listId then { s with items := newItems } else s

/-- A `storage` event dispatched end to end: the notifier
(`onStorageChange`) computes the callback arguments and the controller's
subscribed callback consumes them. -/
def dispatchStorageEvent (key : Option String) (st : Store) (s : AppState) : AppState :=
  match storageEventArgs key st with
  | some (u, its) => handleStorageNotification u its s
  | none => s

/-! ### Round-trip correctness of the serializer against the parser -/

theorem hexVal_hexDigitChar : ∀ d : Nat, d < 16 → hexVal (hexDigitChar d) = some d := by
  decide

theorem parseStringBody_escape (cs rest : List Char) :
    parseStringBody (escapeList cs ++ '"' :: rest) = some (cs, rest) := by
  induction cs with
  | nil =>
    rw [escapeList, List.nil_append, parseStringBody.eq_def]
    simp
  | cons c cs ih =>
    show parseStringBody ((escapeChar c ++ escapeList cs) ++ '"' :: rest) = _
    rw [List.append_assoc]
    unfold escapeChar
    split_ifs with h1 h2 h3 h4 h5 h6 h7 h8
    · subst h1; rw [List.cons_append, List.cons_append, parseStringBody.eq_def]
      simp [consFst, ih]
    · subst h2; rw [List.cons_append, List.cons_append, parseStringBody.eq_def]
      simp [consFst, ih]
    · subst h3; rw [List.cons_append, List.cons_append, parseStringBody.eq_def]
      simp [consFst, ih]
    · subst h4; rw [List.cons_append, List.cons_append, parseStringBody.eq_def]
      simp [consFst, ih]
    · subst h5; rw [List.cons_append, List.cons_append, parseStringBody.eq_def]
      simp [consFst, ih]
    · subst h6; rw [List.cons_append, List.cons_append, parseStringBody.eq_def]
      simp [consFst, ih]
    · subst h7; rw [List.cons_append, List.cons_append, parseStringBody.eq_def]
      simp [consFst, ih]
    · have e1 : hexVal (hexDigitChar (c.toNat / 16)) = some (c.toNat / 16) :=
        hexVal_hexDigitChar _ (by omega)
      have e2 : hexVal (hexDigitChar (c.toNat % 16)) = some (c.toNat % 16) :=
        hexVal_hexDigitChar _ (by omega)
      have h0 : hexVal '0' = some 0 := by decide
      have e3 : 16 * (c.toNat / 16) + c.toNat % 16 = c.toNat := Nat.div_add_mod c.toNat 16
      simp only [List.cons_append]
      rw [parseStringBody.eq_def]
      simp only [e1, e2, h0]
      simp [consFst, ih, e3, Char.ofNat_toNat]
    · simp only [List.cons_append]
      rw [parseStringBody.eq_def]
      simp [h1, h2, h3, h4, h5, h6, h7, h8, consFst, ih]

theorem parseVal_quote (fuel : Nat) (s : String) (rest : List Char) :
    parseVal (fuel + 1) ('"' :: (escapeList s.data ++ '"' :: rest)) = some (.str s, rest) := by
  rw [parseVal.eq_def]
  simp [skipWs, isJsonWs, parseStringBody_escape]

theorem parseVal_item (fuel : Nat) (it : Item) (rest : List Char) :
    parseVal (fuel + 4) (stringifyVal (itemToJson it) ++ rest) = some (itemToJson it, rest) := by
  have hshape : stringifyVal (itemToJson it) ++ rest =
      '{' :: '"' :: (escapeList "id".data ++ '"' :: ':' :: '"' ::
        (escapeList it.id.data ++ '"' :: ',' :: '"' ::
          (escapeList "text".data ++ '"' :: ':' :: '"' ::
            (escapeList it.text.data ++ '"' :: '}' :: rest)))) := by
    simp [itemToJson, stringifyVal, stringifyFields, quoteChars]
  rw [hshape]
  have hf₃ : fuel + 4 = (fuel + 3) + 1 := rfl
  have hf₂ : fuel + 3 = (fuel + 2) + 1 := rfl
  have hf₁ : fuel + 2 = (fuel + 1) + 1 := rfl
  rw [hf₃, parseVal.eq_def]
  simp [skipWs, isJsonWs]
  rw [hf₂, parseFields.eq_def]
  simp [skipWs, isJsonWs, parseStringBody_escape, parseVal_quote]
  rw [hf₁, parseFields.eq_def]
  simp [skipWs, isJsonWs, parseStringBody_escape, parseVal_quote, itemToJson]

theorem parseElems_items (l : List Item) : ∀ (it : Item) (fuel : Nat) (rest : List Char),
    parseElems (5 * l.length + fuel + 5) (stringifyElems ((it :: l).map itemToJson) ++ ']' :: rest) =
      some ((it :: l).map itemToJson, rest) := by
  induction l with
  | nil =>
    intro it fuel rest
    have harith : 5 * ([] : List Item).length + fuel + 5 = (fuel + 4) + 1 := by simp
    rw [harith, parseElems.eq_def]
    simp [stringifyElems, parseVal_item, skipWs, isJsonWs]
  | cons it₂ l ih =>
    intro it fuel rest
    have harith : 5 * ((it₂ :: l).length) + fuel + 5 = (5 * l.length + (fuel + 4) + 5) + 1 := by
      simp [List.length_cons]; omega
    have ih₂ := ih it₂ (fuel + 4) rest
    simp only [List.map_cons] at ih₂
    rw [harith, parseElems.eq_def]
    simp [stringifyElems, parseVal_item, skipWs, isJsonWs, ih₂]

theorem parseVal_arr (l : List Item) (fuel : Nat) (rest : List Char) :
    parseVal (5 * l.length + fuel + 6) (stringifyVal (.arr (l.map itemToJson)) ++ rest) =
      some (.arr (l.map itemToJson), rest) := by
  cases l with
  | nil =>
    have harith : 5 * ([] : List Item).length + fuel + 6 = (fuel + 5) + 1 := by simp
    rw [harith, parseVal.eq_def]
    simp [stringifyVal, stringifyElems, skipWs, isJsonWs]
  | cons it l =>
    have harith : 5 * ((it :: l).length) + fuel + 6 = (5 * l.length + (fuel + 5) + 5) + 1 := by
      simp [List.length_cons]; omega
    obtain ⟨T, hT⟩ : ∃ T, stringifyElems (List.map itemToJson (it :: l)) = '{' :: T := by
      rcases l with _ | ⟨it₂, l⟩
      · exact ⟨_, rfl⟩
      · exact ⟨_, rfl⟩
    have hpe := parseElems_items l it (fuel + 5) rest
    rw [harith, parseVal.eq_def]
    simp only [stringifyVal, List.map_cons, List.cons_append, List.append_assoc,
      List.singleton_append]
    rw [show itemToJson it :: List.map itemToJson l
          = List.map itemToJson (it :: l) from (List.map_cons _ _ _).symm, hT]
    simp only [List.cons_append]
    simp [skipWs, isJsonWs]
    rw [← List.cons_append, ← hT]
    rw [hpe]
    simp

theorem length_le_stringifyElems (l : List Item) : ∀ it : Item,
    (it :: l).length ≤ (stringifyElems ((it :: l).map itemToJson)).length := by
  induction l with
  | nil =>
    intro it
    simp [stringifyElems, stringifyVal, itemToJson, stringifyFields, quoteChars]
  | cons it₂ l ih =>
    intro it
    have h1 : 0 < (stringifyVal (itemToJson it)).length := by
      simp [stringifyVal, itemToJson, stringifyFields, quoteChars]
    have h2 := ih it₂
    simp only [List.map_cons, stringifyElems, List.length_append, List.length_cons] at h2 ⊢
    omega

/-- The serializer-parser round trip for item sequences: `JSON.parse`
inverts `JSON.stringify` on any array of item records. -/
theorem parse_stringify_items (l : List Item) :
    parseJson (stringify (.arr (l.map itemToJson))) = some (.arr (l.map itemToJson)) := by
  cases l with
  | nil => rfl
  | cons it l =>
    unfold parseJson stringify
    have hdata : (String.mk (stringifyVal (.arr ((it :: l).map itemToJson)))).data
        = stringifyVal (.arr ((it :: l).map itemToJson)) := rfl
    rw [hdata]
    have hlen : (it :: l).length ≤ (stringifyVal (.arr ((it :: l).map itemToJson))).length := by
      have := length_le_stringifyElems l it
      simp only [stringifyVal, List.length_cons, List.length_append] at this ⊢
      omega
    have harith : 5 * (stringifyVal (.arr ((it :: l).map itemToJson))).length + 6 =
        5 * (it :: l).length +
          (5 * ((stringifyVal (.arr ((it :: l).map itemToJson))).length - (it :: l).length)) + 6 := by
      omega
    rw [harith]
    rw [show stringifyVal (.arr ((it :: l).map itemToJson)) =
      stringifyVal (.arr ((it :: l).map itemToJson)) ++ [] from (List.append_nil _).symm]
    rw [parseVal_arr]
    simp [skipWs]

/-- Lemma: `load` inverts `save`: the sequence read back is exactly the encoded
sequence that was saved (shared round-trip kernel for the claims). -/
theorem load_save (uuid : String) (l : List Item) (st : Store) :
    load uuid (save uuid (l.map itemToJson) st) = l.map itemToJson := by
  have hne : stringify (.arr (l.map itemToJson)) ≠ "" := by
    intro h
    have hdata : (stringify (.arr (l.map itemToJson))).data = [] := by rw [h]
    simp [stringify, stringifyVal] at hdata
  simp [load, save, Store.setItem, hne, parse_stringify_items]

/-! ### Properties of trimming -/

theorem trimChars_all_ws {l : List Char}
    (h : ∀ c ∈ trimChars l, Char.isWhitespace c) : ∀ c ∈ l, Char.isWhitespace c := by
  intro c hc
  have hsplit := List.takeWhile_append_dropWhile (p := Char.isWhitespace) (l := l)
  rw [← hsplit] at hc
  rcases List.mem_append.mp hc with hc | hc
  · exact List.mem_takeWhile_imp hc
  · set m := l.dropWhile Char.isWhitespace with hm
    have hsplit₂ := List.takeWhile_append_dropWhile (p := Char.isWhitespace) (l := m.reverse)
    have hmem₂ : c ∈ m.reverse := List.mem_reverse.mpr hc
    rw [← hsplit₂] at hmem₂
    rcases List.mem_append.mp hmem₂ with hc₂ | hc₂
    · exact List.mem_takeWhile_imp hc₂
    · exact h c (List.mem_reverse.mpr hc₂)

theorem trimChars_eq_nil {l : List Char}
    (h : ∀ c ∈ l, Char.isWhitespace c) : trimChars l = [] := by
  unfold trimChars
  have h1 : l.dropWhile Char.isWhitespace = [] := List.dropWhile_eq_nil_iff.mpr h
  simp [h1]

/-- Trimming is idempotent on the emptiness test: the trim of a non-blank
trimmed string is still non-blank. -/
theorem jsTrim_jsTrim_ne {s : String} (h : jsTrim s ≠ "") : jsTrim (jsTrim s) ≠ "" := by
  intro hcontra
  apply h
  have hdata : trimChars (trimChars s.data) = [] := by
    have := congrArg String.data hcontra
    simpa [jsTrim] using this
  have hcore : ∀ c ∈ trimChars s.data, Char.isWhitespace c :=
    trimChars_all_ws (by simp [hdata])
  have hall : ∀ c ∈ s.data, Char.isWhitespace c := trimChars_all_ws hcore
  have hnil : trimChars s.data = [] := trimChars_eq_nil hall
  simp [jsTrim, hnil]

/-! ### Properties of object field update -/

theorem getFieldList_append_last (fs : List (String × Json)) (v : Json) :
    getFieldList (fs ++ [("text", v)]) "text" = some v := by
  induction fs with
  | nil => simp [getFieldList]
  | cons p fs ih => simp [getFieldList, ih]

theorem getFieldList_map_replace (fs : List (String × Json)) (t : String) :
    getFieldList (fs.map (fun p => if p.1 = "text" then (p.1, Json.str t) else p)) "text" =
        some (.str t) ∨
      (getFieldList (fs.map (fun p => if p.1 = "text" then (p.1, Json.str t) else p)) "text" =
          none ∧
        fs.any (fun p => p.1 = "text") = false) := by
  induction fs with
  | nil => right; simp [getFieldList]
  | cons p fs ih =>
    rcases ih with ih | ⟨ih, ihany⟩
    · left; simp [getFieldList, ih]
    · by_cases hp : p.1 = "text"
      · left; simp [getFieldList, ih, hp]
      · right
        constructor
        · simp [getFieldList, ih, hp]
        · simp [List.any_cons, hp, ihany]

/-- After `item.text = t` on an object, the `text` property reads back `t`. -/
theorem getField_setText (fs : List (String × Json)) (t : String) :
    (Json.setText (.obj fs) t).getField "text" = some (.str t) := by
  unfold Json.setText
  by_cases hany : fs.any (fun p => p.1 = "text") = true
  · simp only [if_pos hany, Json.getField]
    rcases getFieldList_map_replace fs t with h | ⟨_, hfalse⟩
    · exact h
    · rw [hfalse] at hany; cases hany
  · simp only [Bool.not_eq_true] at hany
    simp only [hany, Bool.false_eq_true, if_false, Json.getField]
    exact getFieldList_append_last fs (.str t)

/-! ### Claim theorems -/

/-- C1: for every list identifier and every item sequence (records of
string identifier and string text), `save(listId, items)` followed by
`load(listId)` returns a sequence equal to `items` in both content and
order: the loaded JSON values are exactly the encoded records, in order,
and decoding them yields the original records back. -/
theorem claim_C1_roundtrip (uuid : String) (items : List Item) (st : Store) :
    load uuid (save uuid (items.map itemToJson) st) = items.map itemToJson ∧
    (items.map itemToJson).map decodeItem = items.map some := by
  refine ⟨load_save uuid items st, ?_⟩
  induction items with
  | nil => rfl
  | cons it l ih => simp [ih, decodeItem, itemToJson, Json.getField, getFieldList]

theorem isPrefixOf_append_self (p t : List Char) : p.isPrefixOf (p ++ t) = true := by
  induction p with
  | nil => simp [List.isPrefixOf]
  | cons c p ih => simp [List.isPrefixOf, ih]

theorem isPrefixOf_exists {p l : List Char} (h : p.isPrefixOf l = true) :
    ∃ t, l = p ++ t := by
  induction p generalizing l with
  | nil => exact ⟨l, rfl⟩
  | cons c p ih =>
    cases l with
    | nil => cases h
    | cons c₂ l =>
      simp only [List.isPrefixOf, Bool.and_eq_true, beq_iff_eq] at h
      obtain ⟨t, ht⟩ := ih h.2
      exact ⟨t, by rw [h.1, ht]; rfl⟩

theorem titleKey_ne_itemsKey (uuid : String) : titleKey uuid ≠ itemsKey uuid := by
  intro h
  have hlen := congrArg (fun s => s.data.length) h
  simp only [titleKey, itemsKey, String.data_append, List.length_append] at hlen
  have h16 : ("quicklist_title_".data).length = 16 := rfl
  have h10 : ("quicklist_".data).length = 10 := rfl
  rw [h16, h10] at hlen
  omega

/-- C2 (counterexample): after `saveTitle` and `remove`, the stored title
is still present — `remove` does not delete all durable state for the
identifier, contradicting the claim. -/
theorem claim_C2_counterexample :
    (remove "u" (saveTitle "u" "Groceries" emptyStore)) (titleKey "u") = some "Groceries" ∧
    loadTitle "u" (remove "u" (saveTitle "u" "Groceries" emptyStore)) = "Groceries" ∧
    "Groceries" ≠ "My List" := by
  refine ⟨by decide, by decide, by decide⟩

/-- C2 (amended): `remove(listId)` deletes the stored item sequence (the
subsequent `load` yields `[]`), leaves the stored title untouched, and is
idempotent. -/
theorem claim_C2_amended (uuid : String) (st : Store) :
    (remove uuid st) (itemsKey uuid) = none ∧
    load uuid (remove uuid st) = [] ∧
    remove uuid (remove uuid st) = remove uuid st ∧
    (remove uuid st) (titleKey uuid) = st (titleKey uuid) ∧
    loadTitle uuid (remove uuid st) = loadTitle uuid st := by
  have hkey : (remove uuid st) (itemsKey uuid) = none := by
    simp [remove, Store.removeItem]
  have htitle : (remove uuid st) (titleKey uuid) = st (titleKey uuid) := by
    simp [remove, Store.removeItem, titleKey_ne_itemsKey uuid]
  refine ⟨hkey, ?_, ?_, htitle, ?_⟩
  · unfold load
    rw [hkey]
  · funext k
    simp only [remove, Store.removeItem]
    split_ifs <;> rfl
  · unfold loadTitle
    rw [htitle]

/-- C6: `load` returns the empty sequence (and, being a total function,
never raises) when no value is stored under the items key, when the
stored value does not parse as JSON, and when it parses to a non-array;
and `loadTitle` of an identifier with no stored title returns the default
title. -/
theorem claim_C6_load_fails_soft (uuid : String) (st : Store) :
    (st (itemsKey uuid) = none → load uuid st = []) ∧
    (∀ raw, st (itemsKey uuid) = some raw → parseJson raw = none → load uuid st = []) ∧
    (∀ raw j, st (itemsKey uuid) = some raw → parseJson raw = some j →
      (∀ xs, j ≠ .arr xs) → load uuid st = []) ∧
    (st (titleKey uuid) = none → loadTitle uuid st = "My List") := by
  refine ⟨?_, ?_, ?_, ?_⟩
  · intro h; unfold load; rw [h]
  · intro raw hraw hparse
    simp only [load, hraw]
    by_cases hemp : raw = ""
    · simp [hemp]
    · rw [if_neg hemp, hparse]
  · intro raw j hraw hparse hnotarr
    simp only [load, hraw]
    by_cases hemp : raw = ""
    · simp [hemp]
    · rw [if_neg hemp, hparse]
      cases j with
      | arr xs => exact absurd rfl (hnotarr xs)
      | nul => rfl
      | bool b => rfl
      | num n => rfl
      | str s => rfl
      | obj fs => rfl
  · intro h; unfold loadTitle; rw [h]

/-- C6 (witness): concrete instances — an empty store, a store holding a
non-JSON string, and a store holding a JSON string that is not an array
all load as `[]`, and the empty store yields the default title. -/
theorem claim_C6_witness :
    load "u" emptyStore = [] ∧
    load "u" (emptyStore.setItem (itemsKey "u") "not json") = [] ∧
    load "u" (emptyStore.setItem (itemsKey "u") "\"x\"") = [] ∧
    loadTitle "u" emptyStore = "My List" := by
  refine ⟨(claim_C6_load_fails_soft "u" emptyStore).1 rfl,
    (claim_C6_load_fails_soft "u" _).2.1 "not json" (by decide) (by rfl),
    (claim_C6_load_fails_soft "u" _).2.2.1 "\"x\"" (.str "x") (by decide) (by rfl) ?_,
    (claim_C6_load_fails_soft "u" emptyStore).2.2.2 rfl⟩
  intro xs h
  cases h

/-- C10: `loadTitle` falls back to the default title `'My List'` not only
when no title is stored but also when the stored title is the empty
string; in particular `saveTitle(listId, "")` followed by
`loadTitle(listId)` returns `'My List'`, not the saved empty string. -/
theorem claim_C10_empty_title_default (uuid : String) (st : Store) :
    loadTitle uuid (saveTitle uuid "" st) = "My List" ∧
    (st (titleKey uuid) = none → loadTitle uuid st = "My List") ∧
    (st (titleKey uuid) = some "" → loadTitle uuid st = "My List") := by
  refine ⟨?_, ?_, ?_⟩
  · simp [loadTitle, saveTitle, Store.setItem]
  · intro h; unfold loadTitle; rw [h]
  · intro h; unfold loadTitle; rw [h]; rfl

/-- C10 (witness): concrete instances of the default-title fallbacks. -/
theorem claim_C10_witness :
    loadTitle "u" (saveTitle "u" "" emptyStore) = "My List" ∧
    loadTitle "u" emptyStore = "My List" := by
  exact ⟨(claim_C10_empty_title_default "u" emptyStore).1,
    (claim_C10_empty_title_default "u" emptyStore).2.1 rfl⟩

/-- C4: at startup the controller uses the identifier from the page
address exactly when the hash is well-formed as implemented — of the
shape `'#/' + id` with `id` non-empty — and then leaves the address
unchanged; when the hash carries no identifier (absent or malformed, i.e.
not of that shape) it adopts the freshly generated identifier and
rewrites the address to `'#/' + freshId`. -/
theorem claim_C4_init_list_id (hash freshId : String) :
    (∀ id, getIdFromHash hash = some id →
      id ≠ "" ∧ hash = "#/" ++ id ∧ initListId hash freshId = (id, hash)) ∧
    (getIdFromHash hash = none → initListId hash freshId = (freshId, "#/" ++ freshId)) := by
  constructor
  · intro id h
    have hsome := h
    unfold getIdFromHash at h
    split_ifs at h with hcond
    · obtain ⟨hpre, hlen⟩ := hcond
      obtain ⟨t, ht⟩ : ∃ t, hash.data = '#' :: '/' :: t := by
        obtain ⟨t, ht⟩ := isPrefixOf_exists hpre
        exact ⟨t, ht⟩
      have hid : id = String.mk t := by
        have := h
        simp only [Option.some.injEq] at this
        rw [← this]
        simp [jsSlice, ht]
      have htne : t ≠ [] := by
        intro hnil
        rw [ht, hnil] at hlen
        simp at hlen
      refine ⟨?_, ?_, ?_⟩
      · intro hemp
        rw [hid] at hemp
        have := congrArg String.data hemp
        simp at this
        exact htne this
      · apply String.ext
        rw [String.data_append, ht, hid]
        rfl
      · unfold initListId
        rw [hsome]
  · intro h
    unfold initListId
    rw [h]

/-- C4 (witness): a well-formed hash `#/abc` is adopted verbatim; a
malformed hash `##x` triggers fresh-identifier generation and address
rewrite. -/
theorem claim_C4_witness :
    initListId "#/abc" "f" = ("abc", "#/abc") ∧ ("#/abc" : String) = "#/" ++ "abc" ∧
    initListId "##x" "f" = ("f", "#/f") := by
  refine ⟨((claim_C4_init_list_id "#/abc" "f").1 "abc" (by rfl)).2.2,
    ((claim_C4_init_list_id "#/abc" "f").1 "abc" (by rfl)).2.1,
    (claim_C4_init_list_id "##x" "f").2 (by rfl)⟩

theorem insertIdx_take_drop {α : Type} (x : α) :
    ∀ (n : Nat) (m : List α), n ≤ m.length →
      m.insertIdx n x = m.take n ++ x :: m.drop n := by
  intro n
  induction n with
  | zero => intro m _; simp
  | succ n ih =>
    intro m hm
    cases m with
    | nil => simp at hm
    | cons a m =>
      simp only [List.insertIdx_succ_cons, List.take_succ_cons, List.drop_succ_cons,
        List.cons_append, List.cons.injEq, true_and]
      exact ih m (by simpa using hm)

/-- C9: for in-bounds origin and destination indices, the `onEnd` handler
produces exactly "remove the item at the origin index, reinsert it at the
destination index": it equals `insertIdx` of the moved element into
`eraseIdx` of the sequence — which preserves the relative order of all
other items — and the result is a permutation of the input; in
particular moving origin 0 to destination 2 in `[A,B,C,D]` yields
`[B,C,A,D]`. -/
theorem claim_C9_reorder (l : List Json) (oi ni : Nat)
    (h1 : oi < l.length) (h2 : ni < l.length) :
    onEndMove oi ni l = (l.eraseIdx oi).insertIdx ni (l.get ⟨oi, h1⟩) ∧
    (onEndMove oi ni l).Perm l ∧
    (∀ a b c d : Json, onEndMove 0 2 [a, b, c, d] = [b, c, a, d]) := by
  have hlen : (l.eraseIdx oi).length = l.length - 1 := by
    rw [List.length_eraseIdx]
    simp [h1]
  have hni : ni ≤ (l.eraseIdx oi).length := by omega
  have hmain : onEndMove oi ni l = (l.eraseIdx oi).insertIdx ni (l.get ⟨oi, h1⟩) := by
    unfold onEndMove
    rw [insertIdx_take_drop _ ni _ hni, List.eraseIdx_eq_take_drop_succ]
    have hmoved : l.getD oi .nul = l.get ⟨oi, h1⟩ := List.getD_eq_getElem l .nul h1
    rw [hmoved]
  refine ⟨hmain, ?_, fun a b c d => rfl⟩
  rw [hmain]
  have hperm₁ : ((l.eraseIdx oi).insertIdx ni (l.get ⟨oi, h1⟩)).Perm
      (l.get ⟨oi, h1⟩ :: l.eraseIdx oi) := by
    rw [insertIdx_take_drop _ ni _ hni]
    have hmid := @List.perm_middle Json (l.get ⟨oi, h1⟩)
      ((l.eraseIdx oi).take ni) ((l.eraseIdx oi).drop ni)
    rwa [List.take_append_drop] at hmid
  refine hperm₁.trans ?_
  have hsplit : l.get ⟨oi, h1⟩ :: l.eraseIdx oi =
      l.get ⟨oi, h1⟩ :: (l.take oi ++ l.drop (oi + 1)) := by
    rw [List.eraseIdx_eq_take_drop_succ]
  rw [hsplit]
  have hperm₂ : (l.get ⟨oi, h1⟩ :: (l.take oi ++ l.drop (oi + 1))).Perm
      (l.take oi ++ l.get ⟨oi, h1⟩ :: l.drop (oi + 1)) := List.perm_middle.symm
  refine hperm₂.trans ?_
  rw [show l.take oi ++ l.get ⟨oi, h1⟩ :: l.drop (oi + 1) = l from ?_]
  have hdrop : l.drop oi = l.get ⟨oi, h1⟩ :: l.drop (oi + 1) := by
    rw [List.drop_eq_getElem_cons h1]
    rfl
  rw [← hdrop, List.take_append_drop]

/-- C9 (witness): a concrete in-bounds reorder instance. -/
theorem claim_C9_witness :
    onEndMove 0 2 [Json.str "A", Json.str "B", Json.str "C", Json.str "D"] =
      [Json.str "B", Json.str "C", Json.str "A", Json.str "D"] := by
  exact (claim_C9_reorder [Json.str "A", Json.str "B", Json.str "C", Json.str "D"] 0 2
    (by decide) (by decide)).2.2 (Json.str "A") (Json.str "B") (Json.str "C") (Json.str "D")

/-- C7: when the trimmed input text is non-empty, `addItem` appends
exactly one new item — carrying the trimmed text and the freshly
generated identifier — at the end of the sequence, leaving all existing
items and their order unchanged, clears the input, and persists the
result; when the trimmed text is empty the operation is a no-op; and a
fresh identifier keeps the sequence's identifiers pairwise distinct. -/
theorem claim_C7_add_item (s : AppState) (st : Store) (freshId : String) :
    (jsTrim s.newItemText ≠ "" →
      (addItem freshId s st).1.items =
          s.items ++ [itemToJson ⟨freshId, jsTrim s.newItemText⟩] ∧
        (addItem freshId s st).1.newItemText = "" ∧
        (addItem freshId s st).1.listId = s.listId ∧
        (addItem freshId s st).2 =
          save s.listId (s.items ++ [itemToJson ⟨freshId, jsTrim s.newItemText⟩]) st) ∧
    (jsTrim s.newItemText = "" → addItem freshId s st = (s, st)) ∧
    (jsTrim s.newItemText ≠ "" →
      (s.items.map (fun j => j.getField "id")).Nodup →
      some (Json.str freshId) ∉ s.items.map (fun j => j.getField "id") →
      ((addItem freshId s st).1.items.map (fun j => j.getField "id")).Nodup) := by
  refine ⟨?_, ?_, ?_⟩
  · intro h
    simp only [addItem, if_neg h]
    exact ⟨trivial, trivial, trivial, trivial⟩
  · intro h
    simp only [addItem, if_pos h]
  · intro h hnodup hfresh
    simp only [addItem, if_neg h, List.map_append, List.map_cons, List.map_nil]
    have hperm : (s.items.map (fun j => j.getField "id") ++
        [(itemToJson ⟨freshId, jsTrim s.newItemText⟩).getField "id"]).Perm
        ((itemToJson ⟨freshId, jsTrim s.newItemText⟩).getField "id" ::
          s.items.map (fun j => j.getField "id")) :=
      List.perm_append_singleton _ _
    rw [hperm.nodup_iff]
    have hfield : (itemToJson ⟨freshId, jsTrim s.newItemText⟩).getField "id" =
        some (Json.str freshId) := rfl
    rw [List.nodup_cons, hfield]
    exact ⟨hfresh, hnodup⟩

/-- C7 (witness): concrete instances — a whitespace-only input is a
no-op, and a trimmable input appends one item with the trimmed text and
the fresh identifier. -/
theorem claim_C7_witness :
    (addItem "f" ⟨"u", [itemToJson ⟨"a", "x"⟩], " milk ", none, ""⟩ emptyStore).1.items =
        [itemToJson ⟨"a", "x"⟩] ++ [itemToJson ⟨"f", "milk"⟩] ∧
    addItem "f" ⟨"u", [itemToJson ⟨"a", "x"⟩], "  ", none, ""⟩ emptyStore =
      (⟨"u", [itemToJson ⟨"a", "x"⟩], "  ", none, ""⟩, emptyStore) := by
  constructor
  · have h := (claim_C7_add_item ⟨"u", [itemToJson ⟨"a", "x"⟩], " milk ", none, ""⟩
      emptyStore "f").1 (by decide)
    rw [h.1]
    rfl
  · exact (claim_C7_add_item ⟨"u", [itemToJson ⟨"a", "x"⟩], "  ", none, ""⟩
      emptyStore "f").2.1 (by decide)

/-- C8: `deleteItem` mutates nothing unless the confirmation gate answers
yes; on confirmation it removes exactly the items whose identifier
property is the given identifier, keeping the remaining items in their
relative order (a sublist), and persists the result; when the identifier
matches no item the sequence is unchanged. -/
theorem claim_C8_delete_item (conf : Bool) (id : String) (s : AppState) (st : Store) :
    (conf = false → deleteItem conf id s st = (s, st)) ∧
    (conf = true →
      (deleteItem conf id s st).1.items = s.items.filter (fun i => !(hasId i id)) ∧
      ((deleteItem conf id s st).1.items).Sublist s.items ∧
      (∀ j ∈ (deleteItem conf id s st).1.items, hasId j id = false) ∧
      ((∀ j ∈ s.items, hasId j id = false) → (deleteItem conf id s st).1.items = s.items) ∧
      (deleteItem conf id s st).2 =
        save s.listId ((deleteItem conf id s st).1.items) st) := by
  constructor
  · intro h
    subst h
    rfl
  · intro h
    subst h
    refine ⟨rfl, ?_, ?_, ?_, rfl⟩
    · exact List.filter_sublist s.items
    · intro j hj
      have := (List.mem_filter.mp hj).2
      simpa using this
    · intro hall
      apply List.filter_eq_self.mpr
      intro j hj
      simp [hall j hj]

/-- C8 (witness): concrete instances — a refused gate leaves state and
store unchanged; a confirmed delete removes the identified item and
leaves a non-matching sequence unchanged. -/
theorem claim_C8_witness :
    deleteItem false "a" ⟨"u", [itemToJson ⟨"a", "x"⟩], "", none, ""⟩ emptyStore =
      (⟨"u", [itemToJson ⟨"a", "x"⟩], "", none, ""⟩, emptyStore) ∧
    (deleteItem true "a" ⟨"u", [itemToJson ⟨"a", "x"⟩, itemToJson ⟨"b", "y"⟩], "", none, ""⟩
        emptyStore).1.items = [itemToJson ⟨"b", "y"⟩] ∧
    (deleteItem true "zz" ⟨"u", [itemToJson ⟨"a", "x"⟩], "", none, ""⟩ emptyStore).1.items =
      [itemToJson ⟨"a", "x"⟩] := by
  refine ⟨(claim_C8_delete_item false "a" _ emptyStore).1 rfl, ?_, ?_⟩
  · rw [((claim_C8_delete_item true "a"
      ⟨"u", [itemToJson ⟨"a", "x"⟩, itemToJson ⟨"b", "y"⟩], "", none, ""⟩ emptyStore).2 rfl).1]
    rfl
  · exact ((claim_C8_delete_item true "zz" ⟨"u", [itemToJson ⟨"a", "x"⟩], "", none, ""⟩
      emptyStore).2 rfl).2.2.2.1 (by decide)

theorem storageEventArgs_items_key (id : String) (st : Store) :
    storageEventArgs (some ("quicklist_" ++ id)) st = some (id, load id st) := by
  have hpre : jsStartsWith ("quicklist_" ++ id) "quicklist_" = true := by
    unfold jsStartsWith
    rw [String.data_append]
    exact isPrefixOf_append_self _ _
  have hslice : jsSlice ("quicklist_" ++ id) "quicklist_".length = id := by
    unfold jsSlice
    rw [String.data_append, List.drop_left' (by rfl)]
  simp only [storageEventArgs, hpre, if_true, hslice]

theorem dispatch_active (id : String) (st : Store) (s : AppState) (h : s.listId = id) :
    dispatchStorageEvent (some ("quicklist_" ++ id)) st s = { s with items := load id st } := by
  simp [dispatchStorageEvent, storageEventArgs_items_key, handleStorageNotification, h]

/-- C3: a mutation of the backing store under the items key of identifier
`id` invokes the subscribed callback with exactly `(id, load id store)`;
when `id` is the controller's active identifier the controller replaces
its whole in-memory sequence with the notified one; and end to end, after
one context adds an item and saves, a second context on the same
identifier — which never called add — observes the added item in its
in-memory sequence upon dispatch of the storage event. -/
theorem claim_C3_change_notification (id : String) (st : Store) :
    storageEventArgs (some ("quicklist_" ++ id)) st = some (id, load id st) ∧
    (∀ s : AppState, s.listId = id →
      dispatchStorageEvent (some ("quicklist_" ++ id)) st s = { s with items := load id st }) ∧
    (∀ (l : List Item) (s₁ s₂ : AppState) (freshId : String),
      s₁.listId = id → s₂.listId = id → s₁.items = l.map itemToJson →
      jsTrim s₁.newItemText ≠ "" →
      (dispatchStorageEvent (some ("quicklist_" ++ id)) (addItem freshId s₁ st).2 s₂).items =
          l.map itemToJson ++ [itemToJson ⟨freshId, jsTrim s₁.newItemText⟩] ∧
        itemToJson ⟨freshId, jsTrim s₁.newItemText⟩ ∈
          (dispatchStorageEvent (some ("quicklist_" ++ id)) (addItem freshId s₁ st).2 s₂).items) := by
  refine ⟨storageEventArgs_items_key id st, fun s h => dispatch_active id st s h, ?_⟩
  intro l s₁ s₂ freshId h1 h2 h3 h4
  have hadd : (addItem freshId s₁ st).2 =
      save id ((l ++ [Item.mk freshId (jsTrim s₁.newItemText)]).map itemToJson) st := by
    simp only [addItem, if_neg h4]
    rw [h1, h3, List.map_append, List.map_cons, List.map_nil]
  have hdisp := dispatch_active id (addItem freshId s₁ st).2 s₂ h2
  rw [hadd] at hdisp ⊢
  simp only [List.map_append, List.map_cons, List.map_nil] at hdisp ⊢
  rw [hdisp]
  have hload := load_save id (l ++ [Item.mk freshId (jsTrim s₁.newItemText)]) st
  rw [List.map_append, List.map_cons, List.map_nil] at hload
  dsimp only
  constructor
  · exact hload
  · rw [hload]
    exact List.mem_append.mpr (Or.inr (List.mem_singleton.mpr rfl))

/-- C3 (witness): a concrete two-context scenario — context 1 (empty
sequence, pending text `' milk '`) adds and saves; context 2, holding an
older sequence for the same identifier, receives the storage event and
observes the added item without having called add. -/
theorem claim_C3_witness :
    (dispatchStorageEvent (some ("quicklist_" ++ "u"))
        (addItem "f" ⟨"u", [], " milk ", none, ""⟩ emptyStore).2
        ⟨"u", [itemToJson ⟨"z", "old"⟩], "", none, ""⟩).items =
      [] ++ [itemToJson ⟨"f", "milk"⟩] ∧
    itemToJson ⟨"f", "milk"⟩ ∈
      (dispatchStorageEvent (some ("quicklist_" ++ "u"))
        (addItem "f" ⟨"u", [], " milk ", none, ""⟩ emptyStore).2
        ⟨"u", [itemToJson ⟨"z", "old"⟩], "", none, ""⟩).items := by
  have h := (claim_C3_change_notification "u" emptyStore).2.2 []
    ⟨"u", [], " milk ", none, ""⟩ ⟨"u", [itemToJson ⟨"z", "old"⟩], "", none, ""⟩ "f"
    rfl rfl rfl (by decide)
  exact h

/-- An item is "good" when its `text` property is a string that is
non-empty after trimming. -/
def goodItem (j : Json) : Bool :=
  match j.getField "text" with
  | some (.str s) => jsTrim s != ""
  | _ => false

/-- Every element of the sequence has non-empty trimmed text (the state
invariant of C5). -/
def goodItems (l : List Json) : Prop := ∀ j ∈ l, goodItem j = true

theorem goodItem_mk {t : String} (i : String) (h : jsTrim t ≠ "") :
    goodItem (itemToJson ⟨i, t⟩) = true := by
  have hfield : (itemToJson ⟨i, t⟩).getField "text" = some (.str t) := rfl
  simp [goodItem, hfield, bne_iff_ne, h]

theorem obj_of_goodItem {j : Json} (h : goodItem j = true) : ∃ fs, j = .obj fs := by
  cases j with
  | obj fs => exact ⟨fs, rfl⟩
  | nul => simp [goodItem, Json.getField] at h
  | bool b => simp [goodItem, Json.getField] at h
  | num n => simp [goodItem, Json.getField] at h
  | str s => simp [goodItem, Json.getField] at h
  | arr xs => simp [goodItem, Json.getField] at h

theorem goodItem_setText {j : Json} {t : String} (hj : goodItem j = true)
    (ht : jsTrim t ≠ "") : goodItem (j.setText t) = true := by
  obtain ⟨fs, rfl⟩ := obj_of_goodItem hj
  have := getField_setText fs t
  simp [goodItem, this, bne_iff_ne, ht]

/-- C5: starting from an in-memory state in which every item's text is
non-empty after trimming, none of the mutating operations — add, delete,
edit commit, edit cancel, reorder (with in-bounds indices) — ever passes
a sequence containing an empty or whitespace-only text to `save`: each
operation preserves the invariant on the in-memory sequence, and its
store effect is either no write at all or exactly `save` of that
invariant-satisfying sequence. -/
theorem claim_C5_no_blank_persisted (s : AppState) (st : Store) (freshId id : String)
    (conf : Bool) (i oi ni : Nat) (hgood : goodItems s.items) :
    (goodItems (addItem freshId s st).1.items ∧
      ((addItem freshId s st).2 = st ∨
        (addItem freshId s st).2 = save s.listId (addItem freshId s st).1.items st)) ∧
    (goodItems (deleteItem conf id s st).1.items ∧
      ((deleteItem conf id s st).2 = st ∨
        (deleteItem conf id s st).2 = save s.listId (deleteItem conf id s st).1.items st)) ∧
    (goodItems (saveEdit i s st).1.items ∧
      ((saveEdit i s st).2 = st ∨
        (saveEdit i s st).2 = save s.listId (saveEdit i s st).1.items st)) ∧
    goodItems (cancelEdit s).items ∧
    (oi < s.items.length → ni < s.items.length →
      goodItems (reorderItems oi ni s st).1.items ∧
        (reorderItems oi ni s st).2 = save s.listId (reorderItems oi ni s st).1.items st) := by
  refine ⟨?_, ?_, ?_, hgood, ?_⟩
  · by_cases h : jsTrim s.newItemText = ""
    · simp only [addItem, if_pos h]
      exact ⟨hgood, Or.inl trivial⟩
    · simp only [addItem, if_neg h]
      refine ⟨?_, Or.inr trivial⟩
      intro j hj
      rcases List.mem_append.mp hj with hj | hj
      · exact hgood j hj
      · rw [List.mem_singleton.mp hj]
        exact goodItem_mk freshId (jsTrim_jsTrim_ne h)
  · cases conf with
    | false => exact ⟨hgood, Or.inl rfl⟩
    | true =>
      refine ⟨?_, Or.inr rfl⟩
      intro j hj
      exact hgood j (List.mem_filter.mp hj).1
  · by_cases h : jsTrim s.editingText = ""
    · simp only [saveEdit, if_pos h]
      exact ⟨hgood, Or.inl trivial⟩
    · simp only [saveEdit, if_neg h]
      refine ⟨?_, Or.inr rfl⟩
      intro j hj
      simp only [cancelEdit] at hj
      by_cases hi : i < s.items.length
      · rcases List.mem_or_eq_of_mem_set hj with hj | hj
        · exact hgood j hj
        · rw [hj, List.getD_eq_getElem _ _ hi]
          exact goodItem_setText (hgood _ (List.getElem_mem hi)) (jsTrim_jsTrim_ne h)
      · rw [List.set_eq_of_length_le (by omega)] at hj
        exact hgood j hj
  · intro h1 h2
    refine ⟨?_, rfl⟩
    intro j hj
    simp only [reorderItems, onEndMove] at hj
    rcases List.mem_append.mp hj with hj | hj
    · have hj₂ := List.mem_of_mem_take hj
      rcases List.mem_append.mp hj₂ with hj₃ | hj₃
      · exact hgood j (List.mem_of_mem_take hj₃)
      · exact hgood j (List.mem_of_mem_drop hj₃)
    · rcases List.mem_cons.mp hj with hj | hj
      · rw [hj, List.getD_eq_getElem _ _ h1]
        exact hgood _ (List.getElem_mem h1)
      · have hj₂ := List.mem_of_mem_drop hj
        rcases List.mem_append.mp hj₂ with hj₃ | hj₃
        · exact hgood j (List.mem_of_mem_take hj₃)
        · exact hgood j (List.mem_of_mem_drop hj₃)

/-- C5 (witness): a concrete invariant-satisfying state run through
every operation. -/
theorem claim_C5_witness :
    goodItems (addItem "f"
      ⟨"u", [itemToJson ⟨"a", "x"⟩], " milk ", none, " y "⟩ emptyStore).1.items ∧
    goodItems (deleteItem true "a"
      ⟨"u", [itemToJson ⟨"a", "x"⟩], " milk ", none, " y "⟩ emptyStore).1.items ∧
    goodItems (saveEdit 0
      ⟨"u", [itemToJson ⟨"a", "x"⟩], " milk ", none, " y "⟩ emptyStore).1.items ∧
    goodItems (cancelEdit ⟨"u", [itemToJson ⟨"a", "x"⟩], " milk ", none, " y "⟩).items ∧
    goodItems (reorderItems 0 0
      ⟨"u", [itemToJson ⟨"a", "x"⟩], " milk ", none, " y "⟩ emptyStore).1.items := by
  have h := claim_C5_no_blank_persisted
    ⟨"u", [itemToJson ⟨"a", "x"⟩], " milk ", none, " y "⟩ emptyStore "f" "a" true 0 0 0
    (by intro j hj; simp only [List.mem_singleton] at hj; rw [hj]; decide)
  exact ⟨h.1.1, h.2.1.1, h.2.2.1.1, h.2.2.2.1, (h.2.2.2.2 (by decide) (by decide)).1⟩

end QuickList
